import Mathlib

/-!
Verification of the detection aggregation, clustering and proximity-alerting
pipeline of the tesa-ui repository.

The embedding follows the source files:
  * src/pages/Dashboard.tsx          (buildLatestObjects, DefensiveAlertPanel.intruders)
  * src/utils/objectGeo.ts           (toValidNumber, extractFromSource, extractCoordinate)
  * the map component (unnamed file)  (toOptionalNumber, getPrimaryCoordinates,
                                       distanceBetween, getMarkerDescriptors,
                                       createCirclePolygon)

JavaScript numbers are modelled by rationals; the dynamically typed
number-or-string-or-missing payload fields by the `NumLike` type below.
The haversine distance (calculateDistanceMeters), which uses transcendental
functions, is abstracted as an explicit function parameter `dist`; every
theorem about the intruder scan is proved for an arbitrary such function.
-/

namespace Tesa

/-- A dynamically typed JavaScript payload field that is expected to hold a
number.  `num q` is a finite number with value `q`; `nan` is the number NaN
(typeof number, `Number.isFinite` false); `numStr q` is a string for which
`parseFloat` returns the finite value `q`; `badStr` is a string on which
`parseFloat` returns NaN; `absent` is null or undefined. -/
inductive NumLike where
  | num (q : ℚ)
  | nan
  | numStr (q : ℚ)
  | badStr
  | absent
  deriving DecidableEq

/-- From src/utils/objectGeo.ts lines 5-12: a finite number is returned as is,
a string is parsed with parseFloat and kept when finite, anything else is null. -/
def toValidNumber : NumLike → Option ℚ
  | .num q => some q
  | .nan => none
  | .numStr q => some q
  | .badStr => none
  | .absent => none

/-- From the map component lines 71-78 (toOptionalNumber): identical logic to
`toValidNumber`, duplicated at its own source site. -/
def toOptionalNumber : NumLike → Option ℚ
  | .num q => some q
  | .nan => none
  | .numStr q => some q
  | .badStr => none
  | .absent => none

/-- The nested telemetry block (`details` / `detail`) of a detected object.
Fields not declared in src/types/detection.ts but read by the coordinate
resolvers through dynamic keys are included as well. -/
structure Telemetry where
  lat : NumLike
  latitude : NumLike
  lng : NumLike
  lon : NumLike
  long : NumLike
  longitude : NumLike
  speed : NumLike
  alt : NumLike
  tar_lat : NumLike
  tar_lng : NumLike
  tar_long : NumLike
  deriving DecidableEq

/-- A telemetry block with every field null/undefined. -/
def emptyTel : Telemetry :=
  ⟨.absent, .absent, .absent, .absent, .absent, .absent, .absent, .absent, .absent,
    .absent, .absent⟩

/-- From src/types/detection.ts (DetectedObject), extended with the undeclared
alias fields (`latitude`, `lon`, `long`, `longitude`) that the runtime payload
may carry and that the resolvers read, and with the `detail` alias block read
by objectGeo.ts. -/
structure DetectedObject where
  obj_id : String
  type : String
  lat : NumLike
  latitude : NumLike
  lng : NumLike
  lon : NumLike
  long : NumLike
  longitude : NumLike
  objective : String
  size : String
  speed : NumLike
  details : Option Telemetry
  detail : Option Telemetry
  deriving DecidableEq

/-- From src/types/detection.ts (DetectionEvent).  The `objects` list is
optional because the consumers guard it with optional chaining
(`event.objects?.forEach`). -/
structure DetectionEvent where
  id : Int
  cam_id : String
  timestamp : String
  image_path : String
  objects : Option (List DetectedObject)
  deriving DecidableEq

/-- The registry entry type of src/pages/Dashboard.tsx lines 48-51. -/
structure LatestObjectEntry where
  object : DetectedObject
  lastSeen : String
  deriving DecidableEq

/-! ### A JavaScript Map as an insertion-ordered association list

`Map.set` overwrites the value of an existing key in place (the key keeps its
insertion position) and otherwise appends a fresh binding at the end;
`Map.get` returns the value of the unique binding of the key. -/

/-- JavaScript `Map.prototype.set`. -/
def mapSet {α : Type} (m : List (String × α)) (k : String) (v : α) : List (String × α) :=
  if m.any (fun p => p.1 == k) then
    m.map (fun p => if p.1 == k then (k, v) else p)
  else
    m ++ [(k, v)]

/-- JavaScript `Map.prototype.get` (None for a missing key). -/
def mapGet {α : Type} (m : List (String × α)) (k : String) : Option α :=
  (m.find? (fun p => p.1 == k)).map Prod.snd

/-- The Map-building stage of buildLatestObjects, src/pages/Dashboard.tsx
lines 72-78: for each event in input order, for each object of the event,
`map.set(obj.obj_id, { object: obj, lastSeen: event.timestamp })`. -/
def buildRegistry (events : List DetectionEvent) : List (String × LatestObjectEntry) :=
  events.foldl
    (fun m e =>
      (e.objects.getD []).foldl (fun m o => mapSet m o.obj_id ⟨o, e.timestamp⟩) m)
    []

/-- Full buildLatestObjects, src/pages/Dashboard.tsx lines 71-83: the map's
values sorted by `lastSeen` descending.  `getTime` abstracts
`new Date(s).getTime()`. -/
def buildLatestObjects (getTime : String → ℚ) (events : List DetectionEvent) :
    List LatestObjectEntry :=
  List.insertionSort (fun a b => getTime b.lastSeen ≤ getTime a.lastSeen)
    ((buildRegistry events).map Prod.snd)

/-- The flattened stream of map writes performed by buildRegistry, in
execution order. -/
def registryWrites (events : List DetectionEvent) : List (String × LatestObjectEntry) :=
  events.flatMap (fun e => (e.objects.getD []).map (fun o => (o.obj_id, ⟨o, e.timestamp⟩)))

/-- The last write for a given id: the object and timestamp of the last array
element (in iteration order) containing that id. -/
def lastWrite (events : List DetectionEvent) (k : String) : Option LatestObjectEntry :=
  ((registryWrites events).reverse.find? (fun w => w.1 == k)).map Prod.snd

theorem find?_map_overwrite {α : Type} (m : List (String × α)) (k k' : String) (v : α)
    (h : ¬ k' = k) :
    (m.map (fun p => if p.1 == k then (k, v) else p)).find? (fun p => p.1 == k') =
      m.find? (fun p => p.1 == k') := by
  induction m with
  | nil => rfl
  | cons p m ih =>
    by_cases hp : p.1 = k
    · simp only [List.map_cons]
      rw [show (if p.1 == k then (k, v) else p) = (k, v) from by simp [hp]]
      rw [List.find?_cons_of_neg _ (by simp only [beq_iff_eq]; exact fun hh => h hh.symm)]
      rw [List.find?_cons_of_neg _
        (by simp only [hp, beq_iff_eq]; exact fun hh => h hh.symm)]
      exact ih
    · simp only [List.map_cons]
      rw [show (if p.1 == k then (k, v) else p) = p from by simp [hp]]
      by_cases hk' : p.1 = k'
      · rw [List.find?_cons_of_pos _ (by simp [hk']), List.find?_cons_of_pos _ (by simp [hk'])]
      · rw [List.find?_cons_of_neg _ (by simp [hk']), List.find?_cons_of_neg _ (by simp [hk'])]
        exact ih

theorem find?_map_overwrite_self {α : Type} (m : List (String × α)) (k : String) (v : α)
    (h : m.any (fun p => p.1 == k) = true) :
    (m.map (fun p => if p.1 == k then (k, v) else p)).find? (fun p => p.1 == k) =
      some (k, v) := by
  induction m with
  | nil => simp at h
  | cons p m ih =>
    by_cases hp : p.1 = k
    · simp only [List.map_cons]
      rw [show (if p.1 == k then (k, v) else p) = (k, v) from by simp [hp]]
      exact List.find?_cons_of_pos _ (by simp)
    · simp only [List.any_cons, Bool.or_eq_true] at h
      have hm : m.any (fun p => p.1 == k) = true := by
        rcases h with h | h
        · exact absurd (by simpa using h) hp
        · exact h
      simp only [List.map_cons]
      rw [show (if p.1 == k then (k, v) else p) = p from by simp [hp]]
      rw [List.find?_cons_of_neg _ (by simp [hp])]
      exact ih hm

theorem mapGet_mapSet {α : Type} (m : List (String × α)) (k k' : String) (v : α) :
    mapGet (mapSet m k v) k' = if k' = k then some v else mapGet m k' := by
  unfold mapGet mapSet
  by_cases hany : m.any (fun p => p.1 == k) = true
  · rw [if_pos hany]
    by_cases h : k' = k
    · subst h
      rw [find?_map_overwrite_self m k' v hany]
      simp
    · rw [find?_map_overwrite m k k' v h, if_neg h]
  · rw [if_neg hany]
    by_cases h : k' = k
    · subst h
      have hnone : m.find? (fun p => p.1 == k') = none := by
        rw [List.find?_eq_none]
        intro x hx hpx
        exact hany (List.any_eq_true.mpr ⟨x, hx, hpx⟩)
      rw [List.find?_append, hnone, if_pos rfl]
      simp [List.find?]
    · rw [List.find?_append, if_neg h]
      have h2 : List.find? (fun p => p.1 == k') [(k, v)] = none := by
        rw [List.find?_eq_none]
        intro x hx hpx
        simp at hx
        subst hx
        simp only [beq_iff_eq] at hpx
        exact h hpx.symm
      rw [h2]
      cases m.find? (fun p => p.1 == k') <;> simp [Option.or]

theorem mapGet_foldl_mapSet {α : Type} (ws : List (String × α)) (m : List (String × α))
    (k : String) :
    mapGet (ws.foldl (fun m w => mapSet m w.1 w.2) m) k =
      ((ws.reverse.find? (fun w => w.1 == k)).map Prod.snd).or (mapGet m k) := by
  induction ws generalizing m with
  | nil => simp
  | cons w ws ih =>
    simp only [List.foldl_cons, List.reverse_cons, List.find?_append]
    rw [ih, mapGet_mapSet]
    cases hfind : ws.reverse.find? (fun w => w.1 == k) with
    | some c => simp [Option.or]
    | none =>
      by_cases h : k = w.1
      · rw [if_pos h]
        rw [List.find?_cons_of_pos _ (by simp [h])]
        simp [Option.or]
      · rw [if_neg h]
        rw [List.find?_cons_of_neg _ (by simp only [beq_iff_eq]; exact fun hh => h hh.symm)]
        simp [Option.or]

theorem buildRegistry_eq_foldl_writes (events : List DetectionEvent) :
    buildRegistry events =
      (registryWrites events).foldl (fun m w => mapSet m w.1 w.2) [] := by
  suffices h : ∀ m : List (String × LatestObjectEntry),
      events.foldl (fun m e => (e.objects.getD []).foldl
          (fun m o => mapSet m o.obj_id ⟨o, e.timestamp⟩) m) m =
        (registryWrites events).foldl (fun m w => mapSet m w.1 w.2) m from h []
  induction events with
  | nil => intro m; rfl
  | cons e es ih =>
    intro m
    have hw : registryWrites (e :: es) =
        (e.objects.getD []).map (fun o => (o.obj_id, (⟨o, e.timestamp⟩ : LatestObjectEntry)))
          ++ registryWrites es := by
      simp [registryWrites]
    rw [hw, List.foldl_cons, List.foldl_append, ih, List.foldl_map]

theorem keys_mapSet_nodup {α : Type} (m : List (String × α)) (k : String) (v : α)
    (h : (m.map Prod.fst).Nodup) : ((mapSet m k v).map Prod.fst).Nodup := by
  unfold mapSet
  by_cases hany : m.any (fun p => p.1 == k) = true
  · rw [if_pos hany]
    have hkeys : (m.map (fun p => if p.1 == k then (k, v) else p)).map Prod.fst =
        m.map Prod.fst := by
      rw [List.map_map]
      apply List.map_congr_left
      intro p _
      by_cases hp : p.1 = k <;> simp [hp]
    rw [hkeys]
    exact h
  · rw [if_neg hany, List.map_append]
    simp only [List.map_cons, List.map_nil]
    refine List.Nodup.append h (List.nodup_singleton k) ?_
    intro a ha hb
    simp only [List.mem_singleton] at hb
    subst hb
    obtain ⟨p, hp, hpk⟩ := List.mem_map.mp ha
    exact hany (List.any_eq_true.mpr ⟨p, hp, by simp [hpk]⟩)

theorem buildRegistry_keys_nodup (events : List DetectionEvent) :
    ((buildRegistry events).map Prod.fst).Nodup := by
  rw [buildRegistry_eq_foldl_writes]
  suffices h : ∀ (ws : List (String × LatestObjectEntry))
      (m : List (String × LatestObjectEntry)), (m.map Prod.fst).Nodup →
      (((ws.foldl (fun m w => mapSet m w.1 w.2) m)).map Prod.fst).Nodup from
    h _ [] (by simp)
  intro ws
  induction ws with
  | nil => intro m hm; exact hm
  | cons w ws ih =>
    intro m hm
    exact ih _ (keys_mapSet_nodup m w.1 w.2 hm)

/-- C1: for every ordered list of DetectionEvents, buildRegistry (the Map
stage of buildLatestObjects) yields exactly one entry per distinct obj_id
(keys are nodup, and a key is bound exactly when some event writes it), and
that entry's object and lastSeen are those of the last write in array
iteration order — the last array element containing that id — not the
element with the maximum timestamp.  The sorted list buildLatestObjects
returns is a permutation of the registry's values, so it carries the same
entries. -/
theorem buildRegistry_last_write_wins (events : List DetectionEvent) (k : String)
    (getTime : String → ℚ) :
    mapGet (buildRegistry events) k = lastWrite events k
    ∧ ((buildRegistry events).map Prod.fst).Nodup
    ∧ (buildLatestObjects getTime events).Perm ((buildRegistry events).map Prod.snd) := by
  refine ⟨?_, buildRegistry_keys_nodup events, List.perm_insertionSort _ _⟩
  rw [buildRegistry_eq_foldl_writes, mapGet_foldl_mapSet]
  unfold lastWrite
  cases h : (registryWrites events).reverse.find? (fun w => w.1 == k) <;>
    simp [mapGet, Option.or]

/-! ### The intruder scan (DefensiveAlertPanel, src/pages/Dashboard.tsx lines 263-286)

`calculateDistanceMeters` (lines 205-215) is the haversine great-circle
distance, built from transcendental functions; it is abstracted here as an
explicit parameter `dist`, and the theorems below hold for every choice of
`dist`. -/

/-- A latitude/longitude pair with rational coordinates. -/
structure LatLng where
  lat : ℚ
  lng : ℚ
  deriving DecidableEq

/-- The coordinate resolution inlined at src/pages/Dashboard.tsx lines
270-272: `typeof v === 'number' ? v : parseFloat(String(v))`, followed by the
`Number.isFinite` filter.  `String(null)`/`String(undefined)` never parse, so
absent values and bad strings are rejected; the NaN number fails the
finiteness filter. -/
def dashCoord : NumLike → Option ℚ
  | .num q => some q
  | .nan => none
  | .numStr q => some q
  | .badStr => none
  | .absent => none

/-- One element of the list the intruders memo produces. -/
structure IntruderEntry where
  object : DetectedObject
  distance : ℚ
  etaSeconds : Option ℚ
  deriving DecidableEq

/-- From src/pages/Dashboard.tsx lines 277-280: the record stored for a newly
seen id.  `typeof obj.speed === 'number' ? obj.speed : null`, then
`speed && speed > 0 ? distance / speed : null`; a NaN speed has typeof
number but is falsy, so it lands in the null branch exactly like the
non-number cases. -/
def intruderRecord (distance : ℚ) (o : DetectedObject) : IntruderEntry :=
  let speed : Option ℚ := match o.speed with
    | .num q => some q
    | _ => none
  let etaSeconds : Option ℚ := match speed with
    | some s => if 0 < s then some (distance / s) else none
    | none => none
  ⟨o, distance, etaSeconds⟩

/-- The body of the inner forEach at src/pages/Dashboard.tsx lines 269-282:
resolve the coordinates, skip when unresolvable, skip when the distance
exceeds the radius, and otherwise record the object under its id if the id
has not been seen in this pass. -/
def seenStep (dist : LatLng → LatLng → ℚ) (p : LatLng) (r : ℚ)
    (seen : List (String × IntruderEntry)) (o : DetectedObject) :
    List (String × IntruderEntry) :=
  match dashCoord o.lat, dashCoord o.lng with
  | some la, some ln =>
      let d := dist p ⟨la, ln⟩
      if r < d then seen
      else if seen.any (fun q => q.1 == o.obj_id) then seen
      else seen ++ [(o.obj_id, intruderRecord d o)]
  | _, _ => seen

/-- The `seen` map after the double forEach of src/pages/Dashboard.tsx lines
266-283. -/
def buildSeen (dist : LatLng → LatLng → ℚ) (p : LatLng) (r : ℚ)
    (events : List DetectionEvent) : List (String × IntruderEntry) :=
  events.foldl (fun seen e => (e.objects.getD []).foldl (seenStep dist p r) seen) []

/-- The intruders memo, src/pages/Dashboard.tsx lines 263-286: empty when the
defended point is absent or the radius is non-positive, otherwise the seen
map's values sorted ascending by distance. -/
def findIntruders (dist : LatLng → LatLng → ℚ) (events : List DetectionEvent)
    (defaultLocation : Option LatLng) (detectionRadius : ℚ) : List IntruderEntry :=
  match defaultLocation with
  | none => []
  | some p =>
      if detectionRadius ≤ 0 then []
      else
        List.insertionSort (fun a b => a.distance ≤ b.distance)
          ((buildSeen dist p detectionRadius events).map Prod.snd)

/-- The in-range record an object contributes to the scan, when it
contributes one: coordinates resolve and the distance is within the radius. -/
def inRangeCandidate (dist : LatLng → LatLng → ℚ) (p : LatLng) (r : ℚ)
    (o : DetectedObject) : Option (String × IntruderEntry) :=
  match dashCoord o.lat, dashCoord o.lng with
  | some la, some ln =>
      let d := dist p ⟨la, ln⟩
      if r < d then none else some (o.obj_id, intruderRecord d o)
  | _, _ => none

/-- The stream of in-range records of a whole event list, in array iteration
order. -/
def inRangeCandidates (dist : LatLng → LatLng → ℚ) (p : LatLng) (r : ℚ)
    (events : List DetectionEvent) : List (String × IntruderEntry) :=
  events.flatMap (fun e => (e.objects.getD []).filterMap (inRangeCandidate dist p r))

theorem seenStep_eq_candidate (dist : LatLng → LatLng → ℚ) (p : LatLng) (r : ℚ)
    (seen : List (String × IntruderEntry)) (o : DetectedObject) :
    seenStep dist p r seen o =
      match inRangeCandidate dist p r o with
      | none => seen
      | some c => if seen.any (fun q => q.1 == c.1) then seen else seen ++ [c] := by
  unfold seenStep inRangeCandidate
  cases dashCoord o.lat <;> cases dashCoord o.lng <;> simp
  split <;> simp

theorem mapGet_foldl_insertIfAbsent {α : Type} (cs : List (String × α))
    (seen : List (String × α)) (k : String) :
    mapGet (cs.foldl
        (fun seen c => if seen.any (fun q => q.1 == c.1) then seen else seen ++ [c]) seen) k =
      (mapGet seen k).or ((cs.find? (fun c => c.1 == k)).map Prod.snd) := by
  induction cs generalizing seen with
  | nil => simp
  | cons c cs ih =>
    rw [List.foldl_cons, ih]
    have hstep : mapGet (if seen.any (fun q => q.1 == c.1) then seen else seen ++ [c]) k =
        (mapGet seen k).or (if c.1 == k then some c.2 else none) := by
      by_cases hany : seen.any (fun q => q.1 == c.1) = true
      · rw [if_pos hany]
        by_cases hk : c.1 = k
        · obtain ⟨q, hq, hqk⟩ := List.any_eq_true.mp hany
          have : (mapGet seen k).isSome := by
            unfold mapGet
            rw [Option.isSome_map', List.find?_isSome]
            exact ⟨q, hq, by simp only [beq_iff_eq] at hqk ⊢; rw [hqk, hk]⟩
          obtain ⟨v, hv⟩ := Option.isSome_iff_exists.mp this
          rw [hv]
          simp [Option.or]
        · rw [if_neg (by simpa using hk)]
          cases mapGet seen k <;> simp [Option.or]
      · rw [if_neg hany]
        unfold mapGet
        rw [List.find?_append]
        by_cases hk : c.1 = k
        · have hnone : seen.find? (fun q => q.1 == k) = none := by
            rw [List.find?_eq_none]
            intro x hx hpx
            exact hany (List.any_eq_true.mpr
              ⟨x, hx, by simp only [beq_iff_eq] at hpx ⊢; rw [hpx, hk]⟩)
          rw [hnone, if_pos (by simpa using hk)]
          simp [List.find?, hk, Option.or]
        · rw [if_neg (by simpa using hk)]
          have hone : List.find? (fun q => q.1 == k) [c] = none := by
            rw [List.find?_eq_none]
            intro x hx hpx
            simp only [List.mem_singleton] at hx
            subst hx
            exact hk (by simpa using hpx)
          rw [hone]
          cases seen.find? (fun q => q.1 == k) <;> simp [Option.or]
    rw [hstep]
    cases hm : mapGet seen k <;>
      cases hc : (c.1 == k : Bool) <;>
        simp [Option.or, List.find?_cons, hc]

theorem foldl_seenStep_eq_filterMap (dist : LatLng → LatLng → ℚ) (p : LatLng) (r : ℚ)
    (objs : List DetectedObject) (seen : List (String × IntruderEntry)) :
    objs.foldl (seenStep dist p r) seen =
      ((objs.filterMap (inRangeCandidate dist p r)).foldl
        (fun seen c => if seen.any (fun q => q.1 == c.1) then seen else seen ++ [c]) seen) := by
  induction objs generalizing seen with
  | nil => rfl
  | cons o objs ih =>
    rw [List.foldl_cons, seenStep_eq_candidate]
    cases hc : inRangeCandidate dist p r o with
    | none =>
      rw [List.filterMap_cons_none hc]
      exact ih _
    | some c =>
      rw [List.filterMap_cons_some hc, List.foldl_cons]
      exact ih _

theorem buildSeen_eq_foldl_candidates (dist : LatLng → LatLng → ℚ) (p : LatLng) (r : ℚ)
    (events : List DetectionEvent) :
    buildSeen dist p r events =
      (inRangeCandidates dist p r events).foldl
        (fun seen c => if seen.any (fun q => q.1 == c.1) then seen else seen ++ [c]) [] := by
  suffices h : ∀ seen,
      events.foldl (fun seen e => (e.objects.getD []).foldl (seenStep dist p r) seen) seen =
        (inRangeCandidates dist p r events).foldl
          (fun seen c => if seen.any (fun q => q.1 == c.1) then seen else seen ++ [c]) seen from
    h []
  induction events with
  | nil => intro seen; rfl
  | cons e es ih =>
    intro seen
    have hw : inRangeCandidates dist p r (e :: es) =
        (e.objects.getD []).filterMap (inRangeCandidate dist p r)
          ++ inRangeCandidates dist p r es := by
      simp [inRangeCandidates]
    rw [hw, List.foldl_cons, List.foldl_append, foldl_seenStep_eq_filterMap, ih]

/-- C7: for each obj_id, the recorded entry of the pass is the first in-range
occurrence of that id in array-iteration order; every later occurrence of the
same id in the same pass is ignored, even if closer or more recent. -/
theorem findIntruders_first_occurrence_wins (dist : LatLng → LatLng → ℚ) (p : LatLng)
    (r : ℚ) (events : List DetectionEvent) (k : String) :
    mapGet (buildSeen dist p r events) k =
      ((inRangeCandidates dist p r events).find? (fun c => c.1 == k)).map Prod.snd := by
  rw [buildSeen_eq_foldl_candidates, mapGet_foldl_insertIfAbsent]
  simp [mapGet]

theorem mem_foldl_insertIfAbsent {α : Type} (cs : List (String × α))
    (seen : List (String × α)) (x : String × α)
    (h : x ∈ cs.foldl
        (fun seen c => if seen.any (fun q => q.1 == c.1) then seen else seen ++ [c]) seen) :
    x ∈ seen ∨ x ∈ cs := by
  induction cs generalizing seen with
  | nil => exact Or.inl h
  | cons c cs ih =>
    rw [List.foldl_cons] at h
    rcases ih _ h with h1 | h1
    · by_cases hany : seen.any (fun q => q.1 == c.1) = true
      · rw [if_pos hany] at h1
        exact Or.inl h1
      · rw [if_neg hany] at h1
        rcases List.mem_append.mp h1 with h2 | h2
        · exact Or.inl h2
        · simp only [List.mem_singleton] at h2
          subst h2
          exact Or.inr (List.mem_cons_self _ _)
    · exact Or.inr (List.mem_cons_of_mem c h1)

theorem intruderRecord_distance (d : ℚ) (o : DetectedObject) :
    (intruderRecord d o).distance = d := rfl

theorem intruderRecord_object (d : ℚ) (o : DetectedObject) :
    (intruderRecord d o).object = o := rfl

theorem findIntruders_none_eq (dist : LatLng → LatLng → ℚ) (events : List DetectionEvent)
    (r : ℚ) : findIntruders dist events none r = [] := rfl

theorem findIntruders_some_eq (dist : LatLng → LatLng → ℚ) (events : List DetectionEvent)
    (p : LatLng) (r : ℚ) :
    findIntruders dist events (some p) r =
      if r ≤ 0 then []
      else
        List.insertionSort (fun a b => a.distance ≤ b.distance)
          ((buildSeen dist p r events).map Prod.snd) := rfl

theorem inRangeCandidate_eq_some (dist : LatLng → LatLng → ℚ) (p : LatLng) (r : ℚ)
    (o : DetectedObject) (c : String × IntruderEntry)
    (h : inRangeCandidate dist p r o = some c) :
    ∃ d, c = (o.obj_id, intruderRecord d o) ∧ d ≤ r := by
  unfold inRangeCandidate at h
  split at h
  · rename_i la ln heq1 heq2
    dsimp only at h
    by_cases hlt : r < dist p ⟨la, ln⟩
    · rw [if_pos hlt] at h
      exact absurd h (by simp)
    · rw [if_neg hlt] at h
      refine ⟨dist p ⟨la, ln⟩, ?_, le_of_not_lt hlt⟩
      exact ((Option.some.injEq _ _).mp h).symm
  · exact absurd h (by simp)

theorem mem_findIntruders_shape (dist : LatLng → LatLng → ℚ)
    (events : List DetectionEvent) (dp : Option LatLng) (r : ℚ) (entry : IntruderEntry)
    (h : entry ∈ findIntruders dist events dp r) :
    ∃ d o, entry = intruderRecord d o ∧ d ≤ r := by
  cases dp with
  | none =>
    rw [findIntruders_none_eq] at h
    simp at h
  | some p =>
    rw [findIntruders_some_eq] at h
    by_cases hr : r ≤ 0
    · rw [if_pos hr] at h
      simp at h
    · rw [if_neg hr] at h
      rw [List.mem_insertionSort] at h
      obtain ⟨c, hc, hce⟩ := List.mem_map.mp h
      rw [buildSeen_eq_foldl_candidates] at hc
      rcases mem_foldl_insertIfAbsent _ _ _ hc with h2 | h2
      · simp at h2
      · obtain ⟨evt, _, hmem⟩ := List.mem_flatMap.mp h2
        obtain ⟨o, _, hcand⟩ := List.mem_filterMap.mp hmem
        obtain ⟨d, hcd, hdr⟩ := inRangeCandidate_eq_some _ _ _ _ _ hcand
        refine ⟨d, o, ?_, hdr⟩
        rw [← hce, hcd]

instance : IsTotal IntruderEntry (fun a b => a.distance ≤ b.distance) :=
  ⟨fun a b => le_total a.distance b.distance⟩

instance : IsTrans IntruderEntry (fun a b => a.distance ≤ b.distance) :=
  ⟨fun _ _ _ hab hbc => le_trans hab hbc⟩

/-- C5: every entry returned by findIntruders has distance at most the
detection radius, and the returned list is sorted ascending by distance. -/
theorem findIntruders_in_range_and_sorted (dist : LatLng → LatLng → ℚ)
    (events : List DetectionEvent) (dp : Option LatLng) (r : ℚ) :
    (∀ e ∈ findIntruders dist events dp r, e.distance ≤ r)
    ∧ (findIntruders dist events dp r).Pairwise (fun a b => a.distance ≤ b.distance) := by
  constructor
  · intro e he
    obtain ⟨d, o, rfl, hdr⟩ := mem_findIntruders_shape dist events dp r e he
    rw [intruderRecord_distance]
    exact hdr
  · cases dp with
    | none =>
      rw [findIntruders_none_eq]
      simp
    | some p =>
      rw [findIntruders_some_eq]
      by_cases hr : r ≤ 0
      · rw [if_pos hr]
        simp
      · rw [if_neg hr]
        exact List.sorted_insertionSort _ _

/-- C6: findIntruders returns the empty list whenever the defended point is
absent or the radius is at most 0, regardless of the event list. -/
theorem findIntruders_empty_of_missing_point_or_radius (dist : LatLng → LatLng → ℚ)
    (events : List DetectionEvent) (dp : Option LatLng) (r : ℚ)
    (h : dp = none ∨ r ≤ 0) :
    findIntruders dist events dp r = [] := by
  cases dp with
  | none => exact findIntruders_none_eq dist events r
  | some p =>
    rcases h with h | h
    · exact absurd h (by simp)
    · rw [findIntruders_some_eq, if_pos h]

/-- C9: an event whose objects field is null/undefined is skipped by both the
registry build and the intruder scan: removing it from anywhere in the list
changes neither result, so it contributes no entries and cannot crash either
function (both are total). -/
theorem null_objects_event_skipped (dist : LatLng → LatLng → ℚ) (dp : Option LatLng)
    (r : ℚ) (e : DetectionEvent) (xs ys : List DetectionEvent) (h : e.objects = none) :
    buildRegistry (xs ++ e :: ys) = buildRegistry (xs ++ ys)
    ∧ findIntruders dist (xs ++ e :: ys) dp r = findIntruders dist (xs ++ ys) dp r := by
  have hreg : ∀ m : List (String × LatestObjectEntry),
      (e.objects.getD []).foldl (fun m o => mapSet m o.obj_id ⟨o, e.timestamp⟩) m = m := by
    intro m
    rw [h]
    rfl
  have hseen : ∀ p, buildSeen dist p r (xs ++ e :: ys) = buildSeen dist p r (xs ++ ys) := by
    intro p
    unfold buildSeen
    rw [List.foldl_append, List.foldl_append, List.foldl_cons]
    have : (e.objects.getD []).foldl (seenStep dist p r)
        (xs.foldl (fun seen e => (e.objects.getD []).foldl (seenStep dist p r) seen) []) =
        xs.foldl (fun seen e => (e.objects.getD []).foldl (seenStep dist p r) seen) [] := by
      rw [h]
      rfl
    rw [this]
  constructor
  · unfold buildRegistry
    rw [List.foldl_append, List.foldl_append, List.foldl_cons, hreg]
  · cases dp with
    | none => rw [findIntruders_none_eq, findIntruders_none_eq]
    | some p =>
      rw [findIntruders_some_eq, findIntruders_some_eq, hseen]

theorem intruderRecord_eta_iff (d : ℚ) (o : DetectedObject) :
    (intruderRecord d o).etaSeconds ≠ none ↔
      ∃ q : ℚ, o.speed = NumLike.num q ∧ 0 < q := by
  unfold intruderRecord
  cases hs : o.speed with
  | num q =>
    by_cases hq : 0 < q
    · simp [hq]
    · simp [hq]
  | nan => simp
  | numStr q => simp
  | badStr => simp
  | absent => simp

/-- C10: an entry's etaSeconds is non-null iff the object's top-level legacy
speed field is a (finite) number strictly greater than 0; a numeric-string
speed or a speed present only in the telemetry block yields a null ETA, even
though numeric-string coordinates are accepted in the same pass. -/
theorem findIntruders_eta_iff_positive_numeric_speed (dist : LatLng → LatLng → ℚ)
    (events : List DetectionEvent) (dp : Option LatLng) (r : ℚ) (entry : IntruderEntry)
    (h : entry ∈ findIntruders dist events dp r) :
    (entry.etaSeconds ≠ none ↔ ∃ q : ℚ, entry.object.speed = NumLike.num q ∧ 0 < q)
    ∧ (∀ q : ℚ, dashCoord (NumLike.numStr q) = some q) := by
  obtain ⟨d, o, rfl, _⟩ := mem_findIntruders_shape dist events dp r entry h
  refine ⟨?_, fun q => rfl⟩
  rw [intruderRecord_object]
  exact intruderRecord_eta_iff d o

/-! ### Concrete scenario data for witnesses -/

/-- A constant stand-in distance function for concrete evaluations; the
intruder-scan theorems hold for every distance function, so any concrete
choice exercises them. -/
def dist0 : LatLng → LatLng → ℚ := fun _ _ => 0

/-- A concrete detected object with numeric coordinates and legacy speed 5. -/
def objW : DetectedObject :=
  ⟨"obj_w", "drone", .num 14, .absent, .num 101, .absent, .absent, .absent, "patrol",
    "small", .num 5, none, none⟩

/-- A concrete event carrying objW. -/
def evW : DetectionEvent :=
  ⟨1, "cam-1", "2026-01-01T00:00:00Z", "/img/1.jpg", some [objW]⟩

/-- A concrete event whose objects field is null. -/
def evNull : DetectionEvent :=
  ⟨2, "cam-1", "2026-01-01T00:00:10Z", "/img/2.jpg", none⟩

/-- Witness for C5: at a concrete feed the returned entry is within range. -/
theorem findIntruders_in_range_and_sorted_witness :
    intruderRecord 0 objW ∈ findIntruders dist0 [evW] (some ⟨14, 101⟩) 100
    ∧ (intruderRecord 0 objW).distance ≤ 100 :=
  have he : findIntruders dist0 [evW] (some ⟨14, 101⟩) 100 = [intruderRecord 0 objW] := by
    rfl
  have hm : intruderRecord 0 objW ∈ findIntruders dist0 [evW] (some ⟨14, 101⟩) 100 :=
    he ▸ List.mem_singleton.mpr rfl
  ⟨hm, (findIntruders_in_range_and_sorted dist0 [evW] (some ⟨14, 101⟩) 100).1 _ hm⟩

/-- Witness for C6: a missing defended point empties the result at a concrete
feed. -/
theorem findIntruders_empty_witness :
    ((none : Option LatLng) = none ∨ (100 : ℚ) ≤ 0)
    ∧ findIntruders dist0 [evW] none 100 = [] :=
  ⟨Or.inl rfl,
    findIntruders_empty_of_missing_point_or_radius dist0 [evW] none 100 (Or.inl rfl)⟩

/-- Witness for C9: a concrete null-objects event is skipped by both passes. -/
theorem null_objects_event_skipped_witness :
    evNull.objects = none
    ∧ buildRegistry ([] ++ evNull :: [evW]) = buildRegistry ([] ++ [evW])
    ∧ findIntruders dist0 ([] ++ evNull :: [evW]) (some ⟨14, 101⟩) 100 =
        findIntruders dist0 ([] ++ [evW]) (some ⟨14, 101⟩) 100 :=
  ⟨rfl,
    (null_objects_event_skipped dist0 (some ⟨14, 101⟩) 100 evNull [] [evW] rfl).1,
    (null_objects_event_skipped dist0 (some ⟨14, 101⟩) 100 evNull [] [evW] rfl).2⟩

/-- Witness for C10: the concrete entry with numeric speed 5 satisfies the
ETA characterisation. -/
theorem findIntruders_eta_witness :
    intruderRecord 0 objW ∈ findIntruders dist0 [evW] (some ⟨14, 101⟩) 100
    ∧ ((intruderRecord 0 objW).etaSeconds ≠ none ↔
        ∃ q : ℚ, (intruderRecord 0 objW).object.speed = NumLike.num q ∧ 0 < q) :=
  have he : findIntruders dist0 [evW] (some ⟨14, 101⟩) 100 = [intruderRecord 0 objW] := by
    rfl
  have hm : intruderRecord 0 objW ∈ findIntruders dist0 [evW] (some ⟨14, 101⟩) 100 :=
    he ▸ List.mem_singleton.mpr rfl
  ⟨hm,
    (findIntruders_eta_iff_positive_numeric_speed dist0 [evW] (some ⟨14, 101⟩) 100 _ hm).1⟩

/-! ### Coordinate resolution (src/utils/objectGeo.ts and the map component) -/

/-- The dynamic key strings the coordinate resolvers index records with. -/
inductive GeoKey where
  | lat
  | latitude
  | lng
  | lon
  | long
  | longitude
  deriving DecidableEq

/-- Dynamic field access on a DetectedObject record for the geo keys. -/
def objField (o : DetectedObject) : GeoKey → NumLike
  | .lat => o.lat
  | .latitude => o.latitude
  | .lng => o.lng
  | .lon => o.lon
  | .long => o.long
  | .longitude => o.longitude

/-- Dynamic field access on a telemetry record for the geo keys. -/
def telField (t : Telemetry) : GeoKey → NumLike
  | .lat => t.lat
  | .latitude => t.latitude
  | .lng => t.lng
  | .lon => t.lon
  | .long => t.long
  | .longitude => t.longitude

/-- From src/utils/objectGeo.ts lines 14-25: walk the key list over a
possibly null record and return the first value that parses. -/
def extractFromSource (source : Option (GeoKey → NumLike)) (keys : List GeoKey) :
    Option ℚ :=
  match source with
  | none => none
  | some s => keys.findSome? fun k => toValidNumber (s k)

/-- From src/utils/objectGeo.ts lines 27-34: the object's own fields take
precedence, then `details`, then `detail`. -/
def extractCoordinate (o : DetectedObject) (keys : List GeoKey) : Option ℚ :=
  (extractFromSource (some (objField o)) keys).or
    ((extractFromSource (o.details.map telField) keys).or
      (extractFromSource (o.detail.map telField) keys))

/-- From src/utils/objectGeo.ts lines 36-37. -/
def getObjectLatitude (o : DetectedObject) : Option ℚ :=
  extractCoordinate o [.lat, .latitude]

/-- From src/utils/objectGeo.ts lines 39-40. -/
def getObjectLongitude (o : DetectedObject) : Option ℚ :=
  extractCoordinate o [.lng, .lon, .long, .longitude]

/-- JavaScript nullish coalescing on a NumLike value: only null/undefined
falls through; NaN and unparsable strings do not. -/
def nullishOr : NumLike → NumLike → NumLike
  | .absent, b => b
  | a, _ => a

/-- From the map component lines 86-97 (getPrimaryCoordinates): unlike
extractCoordinate, this reads only direct fields of the object
(`lat ?? latitude`, `lng ?? long ?? lon`) and never consults the telemetry
block; the chosen raw value is parsed afterwards, so an unparsable direct
value is not skipped in favour of the next key. -/
def getPrimaryCoordinates (o : DetectedObject) : Option (ℚ × ℚ) :=
  match toOptionalNumber (nullishOr o.lat o.latitude),
      toOptionalNumber (nullishOr o.lng (nullishOr o.long o.lon)) with
  | some la, some ln => some (la, ln)
  | _, _ => none

/-! ### Spatial clustering (the map component, getMarkerDescriptors) -/

/-- An open cluster of the greedy pass. -/
structure Cluster where
  lat : ℚ
  lng : ℚ
  objects : List DetectedObject
  deriving DecidableEq

/-- From the map component lines 80-84: distanceBetween returns the square
root of this sum; the source only compares it against a positive tolerance,
and those comparisons are encoded below as `distanceBetweenSq < tol ^ 2`,
which is equivalent because the square root is strictly monotone on the
nonnegative reals. -/
def distanceBetweenSq (lat1 lng1 lat2 lng2 : ℚ) : ℚ :=
  (lat1 - lat2) * (lat1 - lat2) + (lng1 - lng2) * (lng1 - lng2)

/-- The membership test
`distanceBetween(item.lat, item.lng, lat, lng) < tolerance`. -/
def nearCluster (tol la ln : ℚ) (c : Cluster) : Bool :=
  decide (distanceBetweenSq c.lat c.lng la ln < tol ^ 2)

/-- The index of the first list element satisfying the predicate; models
Array.prototype.find together with the in-place mutation of the found
element. -/
def findFirstIdx {α : Type} (p : α → Bool) : List α → Option ℕ
  | [] => none
  | a :: as => if p a then some 0 else (findFirstIdx p as).map (· + 1)

/-- Replace the element at the given index. -/
def listModify {α : Type} (f : α → α) : ℕ → List α → List α
  | _, [] => []
  | 0, a :: as => f a :: as
  | n + 1, a :: as => a :: listModify f n as

/-- From the map component lines 128-131: push the object and update the
running-mean centroid with the new member count. -/
def joinCluster (la ln : ℚ) (o : DetectedObject) (c : Cluster) : Cluster :=
  let objs := c.objects ++ [o]
  let total : ℚ := objs.length
  ⟨c.lat + (la - c.lat) / total, c.lng + (ln - c.lng) / total, objs⟩

/-- The body of the clustering forEach, map component lines 121-135. -/
def clusterStep (tol : ℚ) (cs : List Cluster) (o : DetectedObject) : List Cluster :=
  match getPrimaryCoordinates o with
  | none => cs
  | some (la, ln) =>
      match findFirstIdx (nearCluster tol la ln) cs with
      | some i => listModify (joinCluster la ln o) i cs
      | none => cs ++ [⟨la, ln, [o]⟩]

/-- The tolerance ladder of the map component line 118:
`zoom >= 13 ? 0.002 : zoom >= 11 ? 0.004 : 0.01` (only reached when
zoom < 15). -/
def toleranceFor (zoom : ℚ) : ℚ :=
  if 13 ≤ zoom then 0.002 else if 11 ≤ zoom then 0.004 else 0.01

/-- The marker descriptor union of the map component lines 40-52. -/
inductive MarkerDescriptor where
  | single (lat lng : ℚ) (object : DetectedObject)
  | cluster (lat lng : ℚ) (objects : List DetectedObject)
  deriving DecidableEq

/-- Map component lines 137-151: a size-one cluster renders as a single. -/
def descriptorOfCluster (c : Cluster) : MarkerDescriptor :=
  match c.objects with
  | [o] => .single c.lat c.lng o
  | _ => .cluster c.lat c.lng c.objects

/-- From the map component lines 101-152 (getMarkerDescriptors). -/
def getMarkerDescriptors (items : List DetectedObject) (zoom : ℚ) :
    List MarkerDescriptor :=
  if items.length = 0 then []
  else if 15 ≤ zoom then
    items.filterMap fun o =>
      (getPrimaryCoordinates o).map fun pr => .single pr.1 pr.2 o
  else
    (items.foldl (clusterStep (toleranceFor zoom)) []).map descriptorOfCluster

/-- Modelled from the claim wording: the spec's tolerance table, bracketed by
zoom bands ([13,15) → 0.002, [11,13) → 0.004, below 11 → 0.01); the value
for zoom ≥ 15, where the greedy pass is never reached, is arbitrary. -/
def toleranceSpec (zoom : ℚ) : ℚ :=
  if 13 ≤ zoom ∧ zoom < 15 then 0.002
  else if 11 ≤ zoom ∧ zoom < 13 then 0.004
  else if zoom < 11 then 0.01
  else 0

theorem findFirstIdx_eq_none {α : Type} (p : α → Bool) (l : List α)
    (h : ∀ a ∈ l, ¬ p a) : findFirstIdx p l = none := by
  induction l with
  | nil => rfl
  | cons a as ih =>
    unfold findFirstIdx
    rw [if_neg (h a (List.mem_cons_self a as)),
      ih fun b hb => h b (List.mem_cons_of_mem a hb)]
    rfl

theorem findFirstIdx_eq_some {α : Type} (p : α → Bool) (l : List α) (i : ℕ)
    (hi : i < l.length) (hp : p (l.get ⟨i, hi⟩))
    (hfirst : ∀ j (hj : j < i), ¬ p (l.get ⟨j, lt_trans hj hi⟩)) :
    findFirstIdx p l = some i := by
  induction l generalizing i with
  | nil => simp at hi
  | cons a as ih =>
    cases i with
    | zero =>
      unfold findFirstIdx
      exact if_pos hp
    | succ n =>
      unfold findFirstIdx
      have ha : ¬ p a = true := hfirst 0 (Nat.succ_pos n)
      rw [if_neg ha]
      have hn : n < as.length := Nat.lt_of_succ_lt_succ hi
      rw [ih n hn hp fun j hj => hfirst (j + 1) (Nat.succ_lt_succ hj)]
      rfl

/-- C3: for zoom below 15, getMarkerDescriptors runs the greedy pass with
exactly the spec's bracketed tolerance table, each object with a resolvable
coordinate (in input iteration order) joins the first existing cluster, in
creation order, whose centroid is within tolerance under planar Euclidean
distance in degree space, a fresh cluster is opened at the object's
coordinate when none qualifies, and objects without a resolvable coordinate
are skipped. -/
theorem getMarkerDescriptors_greedy (items : List DetectedObject) (zoom : ℚ)
    (h : zoom < 15) :
    getMarkerDescriptors items zoom =
      (items.foldl (clusterStep (toleranceSpec zoom)) []).map descriptorOfCluster
    ∧ (∀ tol (cs : List Cluster) o la ln, getPrimaryCoordinates o = some (la, ln) →
        ((∀ c ∈ cs, ¬ nearCluster tol la ln c) →
          clusterStep tol cs o = cs ++ [⟨la, ln, [o]⟩])
        ∧ ∀ i (hi : i < cs.length), nearCluster tol la ln (cs.get ⟨i, hi⟩) →
            (∀ j (hj : j < i), ¬ nearCluster tol la ln (cs.get ⟨j, lt_trans hj hi⟩)) →
            clusterStep tol cs o = listModify (joinCluster la ln o) i cs)
    ∧ (∀ tol cs o, getPrimaryCoordinates o = none → clusterStep tol cs o = cs) := by
  refine ⟨?_, ?_, ?_⟩
  · have ht : toleranceFor zoom = toleranceSpec zoom := by
      unfold toleranceFor toleranceSpec
      by_cases h13 : 13 ≤ zoom
      · rw [if_pos h13, if_pos ⟨h13, h⟩]
      · rw [if_neg h13]
        by_cases h11 : 11 ≤ zoom
        · rw [if_pos h11, if_neg fun hc => h13 hc.1,
            if_pos ⟨h11, lt_of_not_le h13⟩]
        · rw [if_neg h11, if_neg fun hc => h13 hc.1,
            if_neg fun hc => h11 hc.1, if_pos (lt_of_not_le h11)]
    unfold getMarkerDescriptors
    by_cases hlen : items.length = 0
    · rw [if_pos hlen, List.length_eq_zero.mp hlen]
      rfl
    · rw [if_neg hlen, if_neg (not_le.mpr h), ht]
  · intro tol cs o la ln hco
    constructor
    · intro hnone
      have hfi : findFirstIdx (nearCluster tol la ln) cs = none :=
        findFirstIdx_eq_none _ _ hnone
      simp [clusterStep, hco, hfi]
    · intro i hi hpi hfirst
      have hfi : findFirstIdx (nearCluster tol la ln) cs = some i :=
        findFirstIdx_eq_some _ _ i hi hpi hfirst
      simp [clusterStep, hco, hfi]
  · intro tol cs o hco
    simp [clusterStep, hco]

/-- Witness for C3 at zoom 12 with two concrete objects. -/
theorem getMarkerDescriptors_greedy_witness :
    (12 : ℚ) < 15
    ∧ getMarkerDescriptors [objW] 12 =
        (([objW].foldl (clusterStep (toleranceSpec 12)) []).map descriptorOfCluster) :=
  ⟨by norm_num, (getMarkerDescriptors_greedy [objW] 12 (by norm_num)).1⟩

/-- A sequence of joins into one cluster, each performed by the source's join
operation (push member, then `centroid += (point - centroid) / newCount`). -/
def foldJoins (c : Cluster) (ps : List ((ℚ × ℚ) × DetectedObject)) : Cluster :=
  ps.foldl (fun c pr => joinCluster pr.1.1 pr.1.2 pr.2 c) c

theorem foldJoins_centroid (ps : List ((ℚ × ℚ) × DetectedObject)) (c : Cluster)
    (h : c.objects ≠ []) :
    (foldJoins c ps).lat =
        ((c.objects.length : ℚ) * c.lat + (ps.map fun pr => pr.1.1).sum) /
          ((c.objects.length : ℚ) + ps.length)
    ∧ (foldJoins c ps).lng =
        ((c.objects.length : ℚ) * c.lng + (ps.map fun pr => pr.1.2).sum) /
          ((c.objects.length : ℚ) + ps.length) := by
  induction ps generalizing c with
  | nil =>
    have hn : ((c.objects.length : ℚ)) ≠ 0 :=
      Nat.cast_ne_zero.mpr fun hh => h (List.length_eq_zero.mp hh)
    refine ⟨?_, ?_⟩ <;>
    · simp only [foldJoins, List.foldl_nil, List.map_nil, List.sum_nil, List.length_nil,
        Nat.cast_zero, add_zero]
      rw [eq_div_iff hn]
      ring
  | cons pr ps ih =>
    have hc' : (joinCluster pr.1.1 pr.1.2 pr.2 c).objects ≠ [] := by
      simp [joinCluster]
    have hlen : ((joinCluster pr.1.1 pr.1.2 pr.2 c).objects.length : ℚ) =
        (c.objects.length : ℚ) + 1 := by
      simp [joinCluster]
    have hstep : foldJoins c (pr :: ps) = foldJoins (joinCluster pr.1.1 pr.1.2 pr.2 c) ps :=
      rfl
    obtain ⟨ih1, ih2⟩ := ih (joinCluster pr.1.1 pr.1.2 pr.2 c) hc'
    have h1 : ((c.objects.length : ℚ)) + 1 ≠ 0 := by positivity
    have h2 : ((c.objects.length : ℚ)) + 1 + (ps.length : ℚ) ≠ 0 := by positivity
    have h3 : ((c.objects.length : ℚ)) + ((ps.length : ℚ) + 1) ≠ 0 := by positivity
    have hjl : (joinCluster pr.1.1 pr.1.2 pr.2 c).lat =
        c.lat + (pr.1.1 - c.lat) / ((c.objects.length : ℚ) + 1) := by
      simp [joinCluster]
    have hjg : (joinCluster pr.1.1 pr.1.2 pr.2 c).lng =
        c.lng + (pr.1.2 - c.lng) / ((c.objects.length : ℚ) + 1) := by
      simp [joinCluster]
    constructor
    · rw [hstep, ih1, hlen, hjl]
      simp only [List.map_cons, List.sum_cons, List.length_cons]
      push_cast
      rw [div_eq_div_iff h2 h3]
      field_simp
      ring
    · rw [hstep, ih2, hlen, hjg]
      simp only [List.map_cons, List.sum_cons, List.length_cons]
      push_cast
      rw [div_eq_div_iff h2 h3]
      field_simp
      ring

/-- C4: for any sequence of joins into a single cluster, the incremental
update `centroid += (point - centroid) / newMemberCount` produces the
arithmetic mean of the coordinates of the cluster's final members, and the
result is independent of the order in which the members joined (exact over
rational arithmetic). -/
theorem incremental_centroid_is_mean (la ln : ℚ) (o : DetectedObject)
    (ps ps' : List ((ℚ × ℚ) × DetectedObject)) (hperm : ps.Perm ps') :
    (foldJoins ⟨la, ln, [o]⟩ ps).lat =
        (la + (ps.map fun pr => pr.1.1).sum) / (1 + (ps.length : ℚ))
    ∧ (foldJoins ⟨la, ln, [o]⟩ ps).lng =
        (ln + (ps.map fun pr => pr.1.2).sum) / (1 + (ps.length : ℚ))
    ∧ (foldJoins ⟨la, ln, [o]⟩ ps).lat = (foldJoins ⟨la, ln, [o]⟩ ps').lat
    ∧ (foldJoins ⟨la, ln, [o]⟩ ps).lng = (foldJoins ⟨la, ln, [o]⟩ ps').lng := by
  have h1 := foldJoins_centroid ps ⟨la, ln, [o]⟩ (by simp)
  have h2 := foldJoins_centroid ps' ⟨la, ln, [o]⟩ (by simp)
  have hsum1 : (ps.map fun pr => pr.1.1).sum = (ps'.map fun pr => pr.1.1).sum :=
    (hperm.map fun pr => pr.1.1).sum_eq
  have hsum2 : (ps.map fun pr => pr.1.2).sum = (ps'.map fun pr => pr.1.2).sum :=
    (hperm.map fun pr => pr.1.2).sum_eq
  have hlen : ps.length = ps'.length := hperm.length_eq
  refine ⟨?_, ?_, ?_, ?_⟩
  · simpa using h1.1
  · simpa using h1.2
  · rw [h1.1, h2.1, hsum1, hlen]
  · rw [h1.2, h2.2, hsum2, hlen]

/-- Witness for C4: two concrete joins in both orders give the same centroid,
the mean. -/
theorem incremental_centroid_is_mean_witness :
    ([(((1 : ℚ), (2 : ℚ)), objW), (((3 : ℚ), (4 : ℚ)), objW)] :
        List ((ℚ × ℚ) × DetectedObject)).Perm
      [(((3 : ℚ), (4 : ℚ)), objW), (((1 : ℚ), (2 : ℚ)), objW)]
    ∧ (foldJoins ⟨0, 0, [objW]⟩
        [(((1 : ℚ), (2 : ℚ)), objW), (((3 : ℚ), (4 : ℚ)), objW)]).lat =
      (foldJoins ⟨0, 0, [objW]⟩
        [(((3 : ℚ), (4 : ℚ)), objW), (((1 : ℚ), (2 : ℚ)), objW)]).lat :=
  have hp : ([(((1 : ℚ), (2 : ℚ)), objW), (((3 : ℚ), (4 : ℚ)), objW)] :
      List ((ℚ × ℚ) × DetectedObject)).Perm
        [(((3 : ℚ), (4 : ℚ)), objW), (((1 : ℚ), (2 : ℚ)), objW)] :=
    List.Perm.swap _ _ _
  ⟨hp, (incremental_centroid_is_mean 0 0 objW _ _ hp).2.2.1⟩

/-- A telemetry block carrying parsable coordinates. -/
def telC2 : Telemetry :=
  ⟨.num (143 / 10), .absent, .num (1011 / 10), .absent, .absent, .absent, .absent,
    .absent, .absent, .absent, .absent⟩

/-- An object whose direct coordinate fields are all absent but whose
telemetry block carries parsable coordinates. -/
def objC2 : DetectedObject :=
  ⟨"obj_c2", "drone", .absent, .absent, .absent, .absent, .absent, .absent, "recon",
    "small", .absent, some telC2, none⟩

/-- The event carrying objC2. -/
def evC2 : DetectionEvent :=
  ⟨3, "cam-1", "2026-01-01T00:00:20Z", "/img/3.jpg", some [objC2]⟩

/-- Counterexample to C2: objC2's position resolves through the telemetry
fallback of extractCoordinate (objectGeo.ts, used by the detection popup),
yet the object is excluded from clustering — getPrimaryCoordinates in the
map component reads direct fields only and yields no position — and from
alerting — the intruder scan reads obj.lat/obj.lng directly — while it still
receives a registry entry. -/
theorem telemetry_only_object_excluded :
    getObjectLatitude objC2 = some (143 / 10)
    ∧ getObjectLongitude objC2 = some (1011 / 10)
    ∧ getPrimaryCoordinates objC2 = none
    ∧ getMarkerDescriptors [objC2] 10 = []
    ∧ findIntruders dist0 [evC2] (some ⟨143 / 10, 1011 / 10⟩) 1000 = []
    ∧ mapGet (buildRegistry [evC2]) "obj_c2" = some ⟨objC2, "2026-01-01T00:00:20Z"⟩ := by
  refine ⟨rfl, rfl, rfl, ?_, ?_, ?_⟩ <;> rfl

/-- C2 amended: extractCoordinate (objectGeo.ts) gives direct fields
precedence over the nested telemetry block and accepts numeric and
numeric-string encodings, with no position (never zero) for unparsable or
absent values; but clustering and alerting resolve coordinates from the
direct fields only, so an object whose direct lat/lng do not resolve is
excluded from clustering and alerting even when its telemetry block carries
parsable coordinates. -/
theorem coordinate_resolution_amended (o : DetectedObject) (keys : List GeoKey) (q : ℚ)
    (hdirect : extractFromSource (some (objField o)) keys = some q) :
    extractCoordinate o keys = some q
    ∧ (∀ v : ℚ, toValidNumber (NumLike.num v) = some v
        ∧ toValidNumber (NumLike.numStr v) = some v)
    ∧ toValidNumber NumLike.badStr = none
    ∧ toValidNumber NumLike.absent = none
    ∧ toValidNumber NumLike.nan = none
    ∧ (∀ (o' : DetectedObject) (keys' : List GeoKey),
        extractFromSource (some (objField o')) keys' = none →
        extractCoordinate o' keys' =
          (extractFromSource (o'.details.map telField) keys').or
            (extractFromSource (o'.detail.map telField) keys'))
    ∧ (∀ (o' : DetectedObject) (t t' : Option Telemetry),
        getPrimaryCoordinates
            ⟨o'.obj_id, o'.type, o'.lat, o'.latitude, o'.lng, o'.lon, o'.long,
              o'.longitude, o'.objective, o'.size, o'.speed, t, t'⟩ =
          getPrimaryCoordinates o')
    ∧ (∀ (o' : DetectedObject) (tol : ℚ) (cs : List Cluster),
        getPrimaryCoordinates o' = none → clusterStep tol cs o' = cs)
    ∧ (∀ (o' : DetectedObject) (dist : LatLng → LatLng → ℚ) (p : LatLng) (r : ℚ)
        (seen : List (String × IntruderEntry)),
        (dashCoord o'.lat = none ∨ dashCoord o'.lng = none) →
        seenStep dist p r seen o' = seen) := by
  refine ⟨?_, fun v => ⟨rfl, rfl⟩, rfl, rfl, rfl, ?_, fun o' t t' => rfl, ?_, ?_⟩
  · unfold extractCoordinate
    rw [hdirect]
    rfl
  · intro o' keys' h
    unfold extractCoordinate
    rw [h, Option.none_or]
  · intro o' tol cs h
    simp [clusterStep, h]
  · intro o' dist p r seen h
    unfold seenStep
    rcases h with h | h
    · rw [h]
    · rw [h]
      cases dashCoord o'.lat <;> rfl

/-- Witness for the amended C2 at a concrete object whose direct latitude is
numeric. -/
theorem coordinate_resolution_amended_witness :
    extractFromSource (some (objField objW)) [GeoKey.lat, GeoKey.latitude] = some 14
    ∧ extractCoordinate objW [GeoKey.lat, GeoKey.latitude] = some 14 :=
  ⟨rfl, (coordinate_resolution_amended objW [GeoKey.lat, GeoKey.latitude] 14 rfl).1⟩

/-! ### Geofence ring (createCirclePolygon, map component lines 154-165)

The trigonometric functions make these definitions noncomputable; the claim
itself is stated exactly over real arithmetic, so the embedding uses ℝ. -/

/-- A real-coordinate center point. -/
structure RealLatLng where
  lat : ℝ
  lng : ℝ

/-- EARTH_RADIUS_METERS, map component line 99. -/
noncomputable def EARTH_RADIUS_METERS : ℝ := 6371000

/-- One vertex of the ring, map component lines 157-162:
`angle = (i / steps) * 2π`, planar offsets
`dx = (r / R) * cos angle` and `dy = (r / R) * sin angle` converted to
degrees, with the longitude offset divided by `cos(center.lat in radians)`;
the source pushes `[lng, lat]` pairs. -/
noncomputable def ringPoint (center : RealLatLng) (radiusMeters : ℝ) (steps : ℕ)
    (i : ℕ) : ℝ × ℝ :=
  (center.lng +
      (radiusMeters / EARTH_RADIUS_METERS) *
          Real.cos (((i : ℝ) / (steps : ℝ)) * (2 * Real.pi)) * 180 / Real.pi /
        Real.cos (center.lat * Real.pi / 180),
    center.lat +
      (radiusMeters / EARTH_RADIUS_METERS) *
          Real.sin (((i : ℝ) / (steps : ℝ)) * (2 * Real.pi)) * 180 / Real.pi)

/-- createCirclePolygon, map component lines 154-165: one vertex for each
i = 0..steps inclusive (the only call site uses the default steps = 64). -/
noncomputable def createCirclePolygon (center : RealLatLng) (radiusMeters : ℝ)
    (steps : ℕ) : List (ℝ × ℝ) :=
  (List.range (steps + 1)).map (ringPoint center radiusMeters steps)

/-- C8: for every center, radius and step count, the ring has steps + 1
vertices, its first and last vertices are equal (a closed ring), and every
vertex's longitude offset is the planar circle offset scaled by
1 / cos(center latitude in radians), exactly over real arithmetic. -/
theorem createCirclePolygon_closed_ring (center : RealLatLng) (radiusMeters : ℝ)
    (steps : ℕ) :
    (createCirclePolygon center radiusMeters steps).length = steps + 1
    ∧ (createCirclePolygon center radiusMeters steps).head? =
        (createCirclePolygon center radiusMeters steps).getLast?
    ∧ ∀ i : ℕ, (ringPoint center radiusMeters steps i).1 - center.lng =
        ((radiusMeters / EARTH_RADIUS_METERS) *
            Real.cos (((i : ℝ) / (steps : ℝ)) * (2 * Real.pi)) * 180 / Real.pi) *
          (Real.cos (center.lat * Real.pi / 180))⁻¹ := by
  refine ⟨?_, ?_, ?_⟩
  · simp [createCirclePolygon]
  · have hpt : ringPoint center radiusMeters steps steps =
        ringPoint center radiusMeters steps 0 := by
      rcases Nat.eq_zero_or_pos steps with h0 | hpos
      · rw [h0]
      · have hs : ((steps : ℝ)) ≠ 0 := Nat.cast_ne_zero.mpr (Nat.pos_iff_ne_zero.mp hpos)
        unfold ringPoint
        rw [show ((steps : ℝ) / (steps : ℝ)) * (2 * Real.pi) = 2 * Real.pi by
          rw [div_self hs, one_mul]]
        norm_num [Real.cos_two_pi, Real.sin_two_pi]
    have h1 : (createCirclePolygon center radiusMeters steps).head? =
        some (ringPoint center radiusMeters steps 0) := by
      unfold createCirclePolygon
      rw [List.range_succ_eq_map]
      rfl
    have h2 : (createCirclePolygon center radiusMeters steps).getLast? =
        some (ringPoint center radiusMeters steps steps) := by
      unfold createCirclePolygon
      rw [List.range_succ, List.map_append]
      simp only [List.map_cons, List.map_nil]
      exact List.getLast?_concat _
    rw [h1, h2, hpt]
  · intro i
    unfold ringPoint
    rw [add_sub_cancel_left]
    exact div_eq_mul_inv _ _

end Tesa
